import Mathlib

/-!
Verification development for the zaark job-scheduling engine.

The definitions below are a shallow embedding of the state-machine based
variant of the source (the second `Job` class in `src/lib/job.js`, the
state-based `Manager` in `src/unnamed/part_002`, and the `util` module in
`src/lib/util.js`).  JavaScript `Date` values are modelled by their epoch
offset in milliseconds (UTC; the local-time offset of the host is taken to
be zero), machine numbers by `Int`/`Nat`, and fallible code by `Except`.
-/

namespace Zaark

/-! ## JavaScript errors -/

/-- A thrown JavaScript error: either a `TypeError` raised by the runtime or
an `Error` constructed with a message. -/
inductive JSErr
  | typeError (msg : String)
  | error (msg : String)
deriving DecidableEq, Repr

/-! ## Dates

A JS `Date` is its epoch offset in milliseconds.  Getters read calendar
fields through the proleptic Gregorian calendar (civil-from-days /
days-from-civil); setters replace one calendar field keeping the rest,
which for the uniform fields (seconds, minutes, hours, day-of-month) is a
linear shift of the offset, exactly as in JS. -/

structure JSDate where
  ms : Int
deriving DecidableEq, Repr

namespace JSDate

def msPerSec : Int := 1000
def msPerMin : Int := 60000
def msPerHour : Int := 3600000
def msPerDay : Int := 86400000

/-- Civil date (year, month 1..12, day 1..31) from a count of days since
1970-01-01, proleptic Gregorian calendar. -/
def civilFromDays (z : Int) : Int × Int × Int :=
  let z := z + 719468
  let era := z.fdiv 146097
  let doe := z - era * 146097
  let yoe := (doe - doe.fdiv 1460 + doe.fdiv 36524 - doe.fdiv 146096).fdiv 365
  let y := yoe + era * 400
  let doy := doe - (365 * yoe + yoe.fdiv 4 - yoe.fdiv 100)
  let mp := (5 * doy + 2).fdiv 153
  let d := doy - (153 * mp + 2).fdiv 5 + 1
  let m := mp + (if mp < 10 then 3 else -9)
  (y + (if m ≤ 2 then 1 else 0), m, d)

/-- Days since 1970-01-01 of a civil date (month 1..12). -/
def daysFromCivil (y m d : Int) : Int :=
  let y := y - (if m ≤ 2 then 1 else 0)
  let era := y.fdiv 400
  let yoe := y - era * 400
  let doy := (153 * (m + (if m > 2 then -3 else 9)) + 2).fdiv 5 + d - 1
  let doe := yoe * 365 + yoe.fdiv 4 - yoe.fdiv 100 + doy
  era * 146097 + doe - 719468

def getSeconds (d : JSDate) : Int := (d.ms.fdiv msPerSec).emod 60

def getMinutes (d : JSDate) : Int := (d.ms.fdiv msPerMin).emod 60

def getHours (d : JSDate) : Int := (d.ms.fdiv msPerHour).emod 24

/-- `getDate()`: day of month. -/
def getDate (d : JSDate) : Int := (civilFromDays (d.ms.fdiv msPerDay)).2.2

/-- `getMonth()`: zero-based month. -/
def getMonth (d : JSDate) : Int := (civilFromDays (d.ms.fdiv msPerDay)).2.1 - 1

def getFullYear (d : JSDate) : Int := (civilFromDays (d.ms.fdiv msPerDay)).1

/-- `setSeconds(v)` keeps everything but the seconds field; out-of-range
values roll over linearly, as in JS. -/
def setSeconds (d : JSDate) (v : Int) : JSDate := ⟨d.ms + (v - d.getSeconds) * msPerSec⟩

def setMinutes (d : JSDate) (v : Int) : JSDate := ⟨d.ms + (v - d.getMinutes) * msPerMin⟩

def setHours (d : JSDate) (v : Int) : JSDate := ⟨d.ms + (v - d.getHours) * msPerHour⟩

/-- `setDate(v)` sets the day of month; since days have a fixed length this
is a linear shift of the offset. -/
def setDate (d : JSDate) (v : Int) : JSDate := ⟨d.ms + (v - d.getDate) * msPerDay⟩

/-- `setMonth(v)` (zero-based `v`): keep the day-of-month and time-of-day,
replace the month, carrying overflow into the year and rolling a too-large
day-of-month forward, as JS does. -/
def setMonth (d : JSDate) (v : Int) : JSDate :=
  let z := d.ms.fdiv msPerDay
  let tod := d.ms.emod msPerDay
  let c := civilFromDays z
  let y := c.1 + v.fdiv 12
  let m := v.emod 12 + 1
  ⟨(daysFromCivil y m 1 + (c.2.2 - 1)) * msPerDay + tod⟩

def setFullYear (d : JSDate) (v : Int) : JSDate :=
  let z := d.ms.fdiv msPerDay
  let tod := d.ms.emod msPerDay
  let c := civilFromDays z
  ⟨(daysFromCivil v c.2.1 1 + (c.2.2 - 1)) * msPerDay + tod⟩

end JSDate

/-! ## `util.date` (src/lib/util.js lines 13-28)

After Joi validation (`Joi.date()` coerces date strings), a config's
`scheduling.when` is either an absolute `Date` or a partial field
template. -/

/-- The partial date-field template accepted by `util.date`. -/
structure DateTemplate where
  day : Option Int := none
  hour : Option Int := none
  minute : Option Int := none
  month : Option Int := none
  second : Option Int := none
  year : Option Int := none
deriving DecidableEq, Repr

inductive WhenVal
  | instant (d : JSDate)
  | template (t : DateTemplate)
deriving DecidableEq, Repr

/-- `util.date(arg)`.  A `Date` argument is returned as is.  A template is
applied to the current date field by field, in source order.  The source
calls `date.setHour(arg.hour)` — `Date` has no `setHour` method, so a
template with an `hour` field throws a `TypeError`. -/
def dateFn (now : JSDate) : WhenVal → Except JSErr JSDate
  | .instant d => .ok d
  | .template t =>
    let d := match t.day with
      | some v => now.setDate v
      | none => now
    match t.hour with
    | some _ => .error (.typeError "date.setHour is not a function")
    | none =>
      let d := match t.minute with
        | some v => d.setMinutes v
        | none => d
      let d := match t.month with
        | some v => d.setMonth v
        | none => d
      let d := match t.second with
        | some v => d.setSeconds v
        | none => d
      let d := match t.year with
        | some v => d.setFullYear v
        | none => d
      .ok d

/-- `util.schedule(fn, when)` (src/lib/util.js lines 67-83): computes the
delay `when - now` in milliseconds and throws when it is negative; the
subsequent hrtime adjustment only shrinks the armed delay. -/
def utilSchedule (now whenD : JSDate) : Except JSErr Unit :=
  if whenD.ms - now.ms < 0 then .error (.error "Cannot schedule in the past")
  else .ok ()

/-! ## Job configuration (post-Joi, src/unnamed/part_001) -/

structure Every where
  number : Nat
  unit : String
deriving DecidableEq, Repr

structure Scheduling where
  when : Option WhenVal := none
  every : Option Every := none
  attempts : Nat := 0
  delay : Nat := 0
  timeout : Nat := 0
deriving DecidableEq, Repr

structure BrowserCfg where
  headless : Bool := true
  proxy : Option String := none
deriving DecidableEq, Repr

/-- A validated job config.  Reporting sinks are outside the claims
considered here and are not modelled. -/
structure JobConfig where
  title : String
  data : List (String × String) := []
  browser : BrowserCfg := {}
  scheduling : Scheduling := {}
deriving DecidableEq, Repr

/-- The units recognized by the `switch` in `handleBegin`
(src/lib/job.js lines 332-355). -/
def recognizedUnit (u : String) : Bool :=
  u = "minute" || u = "minutes" || u = "hour" || u = "hours" ||
  u = "day" || u = "days" || u = "week" || u = "weeks" ||
  u = "month" || u = "months"

/-- The date advancement performed by the `switch` in `handleBegin`:
weeks fall through into the day case after `number *= 7`; an unrecognized
unit leaves the date unchanged (the `switch` has no default case). -/
def advance (d : JSDate) (number : Nat) (unit : String) : JSDate :=
  if unit = "minute" ∨ unit = "minutes" then d.setMinutes (d.getMinutes + number)
  else if unit = "hour" ∨ unit = "hours" then d.setHours (d.getHours + number)
  else if unit = "week" ∨ unit = "weeks" then
    let number := 7 * number
    d.setDate (d.getDate + number)
  else if unit = "day" ∨ unit = "days" then d.setDate (d.getDate + number)
  else if unit = "month" ∨ unit = "months" then d.setMonth (d.getMonth + number)
  else d

/-! ## Job lifecycle (state-machine variant of `Job`, src/lib/job.js 260-669)

Job states, the `state`/`next` events a job emits, the constructor with
`setConfig`, and `changeState` with the once-only `handleBegin` listener
that the constructor registers (lines 293-301). -/

inductive JobState
  | created
  | scheduled
  | running
  | stopped
  | done
  | removed
deriving DecidableEq, Repr

def stateName : JobState → String
  | .created => "created"
  | .scheduled => "scheduled"
  | .running => "running"
  | .stopped => "stopped"
  | .done => "done"
  | .removed => "removed"

/-- The observable fields of a successor job carried by a `next` event. -/
structure SuccView where
  id : String
  config : JobConfig
  script : String
  state : JobState
deriving DecidableEq, Repr

inductive JEvent
  | state (s : JobState)
  | next (succ : SuccView)
deriving DecidableEq, Repr

/-- The data fields of a `Job` instance.  The compiled script hooks are
function-valued and are carried separately (see `RunCfg` below) so that
the record stays decidable.  Log lines are modelled without the ISO
timestamp prefix that `log` prepends; none of the claims depends on it. -/
structure JobRec where
  id : String
  config : JobConfig
  script : String
  state : JobState
  logs : List String
  result : List (String × String)
  events : List JEvent
  beginHandled : Bool
deriving DecidableEq, Repr

namespace JobRec

/-- The `stopped` getter (src/lib/job.js lines 311-313). -/
def stoppedGet (j : JobRec) : Bool := j.state = .stopped

/-- The `running` getter (lines 307-309). -/
def runningGet (j : JobRec) : Bool := j.state = .running

/-- `log(text)` appends to `logs` (timestamp prefix omitted, see above). -/
def log (j : JobRec) (text : String) : JobRec := { j with logs := j.logs ++ [text] }

end JobRec

/-- `setConfig` (lines 537-546) restricted to its scheduling effect: when
`scheduling.when` is present the job resolves it with `util.date` and
arms the start timer; `util.schedule` throws when the instant is in the
past, and only after arming does `schedule` transition to `scheduled`
(line 522), so a job whose `when` is past never reaches `scheduled`. -/
def setConfigState (now : JSDate) (cfg : JobConfig) : Except JSErr JobState := do
  match cfg.scheduling.when with
  | none => .ok .created
  | some w => do
    let whenD ← dateFn now w
    utilSchedule now whenD
    .ok .scheduled

/-- The `Job` constructor (lines 278-301): fresh id (`uuid()` modelled as a
caller-supplied fresh identifier), `setConfig`, `setScript` (the script
string is stored; hook extraction is modelled by `setScript` below), and
registration of the once-only `handleBegin` state listener. -/
def construct (id : String) (cfg : JobConfig) (script : String) (now : JSDate) :
    Except JSErr JobRec := do
  let st ← setConfigState now cfg
  .ok { id := id, config := cfg, script := script, state := st,
        logs := [], result := [], beginHandled := false,
        events := if st = .scheduled then [JEvent.state .scheduled] else [] }

/-- `handleBegin` (lines 319-363): on the first transition into `running`,
when `scheduling.every` has a truthy `number` and `unit`, resolve
`scheduling.when || {}` through `util.date`, advance it by the recurrence
interval, construct a successor job with the same config except the
computed `when` and the same script, and emit it as a `next` event. -/
def handleBegin (j : JobRec) (freshId : String) (now : JSDate) :
    Except JSErr (Option SuccView) :=
  let s := j.config.scheduling
  match s.every with
  | none => .ok none
  | some e =>
    if e.number = 0 ∨ e.unit = "" then .ok none
    else do
      let base ← dateFn now (s.when.getD (.template {}))
      let whenD := advance base e.number e.unit
      let cfg := { j.config with scheduling := { s with when := some (.instant whenD) } }
      let succ ← construct freshId cfg j.script now
      .ok (some { id := succ.id, config := succ.config, script := succ.script,
                  state := succ.state })

/-- `changeState` (lines 315-317) together with the state listener the
constructor registers: the `state` event is emitted, and on the first
`running` state `handleBegin` runs and the listener removes itself. -/
def changeState (freshId : String) (now : JSDate) (j : JobRec) (s : JobState) :
    Except JSErr JobRec := do
  let j := { j with state := s, events := j.events ++ [JEvent.state s] }
  if s = .running ∧ ¬j.beginHandled then do
    let succ ← handleBegin j freshId now
    .ok { j with beginHandled := true,
                 events := j.events ++ (succ.map JEvent.next).toList }
  else .ok j

/-- Drive a job through a list of state transitions. -/
def drive (freshId : String) (now : JSDate) (j : JobRec) :
    List JobState → Except JSErr JobRec
  | [] => .ok j
  | s :: rest => do
    let j ← changeState freshId now j s
    drive freshId now j rest

/-- Number of `next` events in an event list. -/
def countNext (es : List JEvent) : Nat :=
  (es.filter fun e => match e with | .next _ => true | _ => false).length

/-- The `next` payloads of an event list, in order. -/
def nextEvents (es : List JEvent) : List SuccView :=
  es.filterMap fun e => match e with | .next v => some v | _ => none

/-! ## Script sandbox (`setScript`, src/lib/job.js lines 553-593)

The vm context produced by evaluating the script is a JS object whose
bindings the method inspects.  A hook's behaviour is modelled by the
result each invocation produces. -/

/-- Result of one hook invocation: a returned truthiness or a thrown
error message. -/
inductive ARes
  | ok (b : Bool)
  | exn (msg : String)
deriving DecidableEq, Repr

/-- A top-level binding found in the evaluated script context: a function
(with its per-invocation behaviour) or a non-callable value. -/
inductive CtxVal
  | fn (behaviour : Nat → ARes)
  | nonFn

/-- The evaluated script context.  The object may well carry a `monitor`
binding; whether `setScript` looks at it is exactly what claim C2 is
about. -/
structure Ctx where
  setup : Option CtxVal := none
  monitor : Option CtxVal := none
  action : Option CtxVal := none
  finalize : Option CtxVal := none

/-- The hooks bound onto the job instance by `setScript`. -/
structure Hooks where
  setup : Option (Nat → ARes) := none
  action : Option (Nat → ARes) := none
  finalize : Option (Nat → ARes) := none

/-- `setScript` checks, in order, the `setup`, `action` and `finalize`
bindings of the context: a present binding that is not a function is a
validation error, a present function is bound onto the job.  No other
binding of the context is inspected. -/
def setScript (ctx : Ctx) : Except JSErr Hooks := do
  let setupH ← match ctx.setup with
    | some (.fn f) => pure (some f)
    | some .nonFn => throw (JSErr.error "Expected setup to be a function")
    | none => pure none
  let actionH ← match ctx.action with
    | some (.fn f) => pure (some f)
    | some .nonFn => throw (JSErr.error "Expected action to be a function")
    | none => pure none
  let finalizeH ← match ctx.finalize with
    | some (.fn f) => pure (some f)
    | some .nonFn => throw (JSErr.error "Expected finalize to be a function")
    | none => pure none
  .ok { setup := setupH, action := actionH, finalize := finalizeH }

/-! ## The run loop (`start`, src/lib/job.js lines 405-490)

The loop's observable steps are recorded in a trace.  (`Ev.monitorCall`
exists in the vocabulary only because the specification talks about a
monitor hook; the embedded code never produces it.)  The cooperative stop
flag is modelled by `stopBy`: `stopBy i = true` means `stop()` has been
called by the time the loop reaches the guard of iteration `i`; the stop
call itself is `this.running && this.changeState('stopped')`, which for a
running job is the pure transition `stopFn`. -/

inductive Ev
  | monitorCall (i : Nat)
  | actionCall (i : Nat)
  | actionFailLog (msg : String)
  | sleepEv
  | reloadEv
deriving DecidableEq, Repr

/-- `stop()` (lines 499-501). -/
def stopFn (j : JobRec) : JobRec :=
  if j.state = .running then
    { j with state := .stopped, events := j.events ++ [JEvent.state .stopped] }
  else j

/-- External behaviours the run depends on. -/
structure RunCfg where
  launchOk : Bool := true
  launchErr : String := ""
  setup : Except String Unit := .ok ()
  action : Nat → ARes
  finalize : Except String Unit := .ok ()

/-- The attempt bound the loop actually uses (lines 443-453): the
configured `scheduling.attempts`, replaced by `Infinity` (here `none`)
whenever `scheduling.timeout` is nonzero. -/
def effAttempts (s : Scheduling) : Option Nat :=
  if s.timeout ≠ 0 then none else some s.attempts

/-- Guard of the `for` loop: `!this.stopped && i < attempts`. -/
def loopGuard (j : JobRec) (i : Nat) (attempts : Option Nat) : Bool :=
  !j.stoppedGet && (match attempts with | none => true | some n => i < n)

/-- One run of the attempt loop (lines 455-472), fuel-bounded.  Returns
the job, the final value of `i`, the trace of loop events, and whether
the loop reached its exit condition (`false` = fuel ran out with the loop
still going). -/
def loopGo (rc : RunCfg) (delay : Nat) (attempts : Option Nat) (stopBy : Nat → Bool) :
    Nat → Nat → JobRec → JobRec × Nat × List Ev × Bool
  | 0, i, j => (j, i, [], false)
  | fuel + 1, i, j =>
    let j := if stopBy i then stopFn j else j
    if loopGuard j i attempts then
      match rc.action i with
      | .ok true => (j, i + 1, [Ev.actionCall i], true)
      | .ok false =>
        let tr := [Ev.actionCall i] ++
          (if !j.stoppedGet && delay ≠ 0 then [Ev.sleepEv] else []) ++ [Ev.reloadEv]
        let r := loopGo rc delay attempts stopBy fuel (i + 1) j
        (r.1, r.2.1, tr ++ r.2.2.1, r.2.2.2)
      | .exn m =>
        let j := if j.stoppedGet then j else j.log ("action() failed: " ++ m)
        let tr := [Ev.actionCall i, Ev.actionFailLog m] ++
          (if !j.stoppedGet && delay ≠ 0 then [Ev.sleepEv] else []) ++ [Ev.reloadEv]
        let r := loopGo rc delay attempts stopBy fuel (i + 1) j
        (r.1, r.2.1, tr ++ r.2.2.1, r.2.2.2)
    else (j, i, [], true)

/-- `finish` (lines 663-666): close the browser, and
`this.running && this.changeState('done')`; the `done` state is never the
`running` trigger of the constructor listener, so this is pure. -/
def finishJ (j : JobRec) : JobRec :=
  if j.state = .running then
    { j with state := .done, events := j.events ++ [JEvent.state .done] }
  else j

/-- The outcome of a `start()` call. -/
structure RunOut where
  job : JobRec
  i : Nat
  trace : List Ev
  finished : Bool
deriving Repr

/-- The part of `start()` after the attempt loop (lines 474-489): when
the loop ran out of fuel the run is reported unfinished; otherwise the
post-loop block guarded by `!this.stopped` logs the attempt count, runs
`finalize` (its result or failure is logged), and `finish` follows. -/
def afterLoop (rc : RunCfg) (r : JobRec × Nat × List Ev × Bool) : Except JSErr RunOut :=
  if ¬r.2.2.2 then .ok { job := r.1, i := r.2.1, trace := r.2.2.1, finished := false }
  else
    let j := r.1
    let j :=
      if ¬j.stoppedGet then
        let j := j.log ("Ran action() " ++ toString r.2.1 ++ " times")
        match rc.finalize with
        | .ok () => (j.log "Result: ...").log "Completed"
        | .error m => (j.log ("finalize() failed: " ++ m)).log "Halting job"
      else j
    .ok { job := finishJ j, i := r.2.1, trace := r.2.2.1, finished := true }

/-- `start()` (lines 405-490).  `changeState('running')` runs first (and
may emit a `next` event through `handleBegin`); the launch, `setup`, the
attempt loop and `afterLoop` follow the source control flow. -/
def startRun (freshId : String) (now : JSDate) (j0 : JobRec) (rc : RunCfg)
    (stopBy : Nat → Bool) (fuel : Nat) : Except JSErr RunOut := do
  let j ← changeState freshId now j0 .running
  let j := { j with result := [] }
  let j := j.log ("Started \"" ++ j.config.title ++ "\"")
  if ¬rc.launchOk then
    let j := j.log ("Failed to launch browser: " ++ rc.launchErr)
    .ok { job := finishJ j, i := 0, trace := [], finished := true }
  else match rc.setup with
  | .error m =>
    let j := (j.log ("setup() failed: " ++ m)).log "Halting job"
    .ok { job := finishJ j, i := 0, trace := [], finished := true }
  | .ok () =>
    let attempts := effAttempts j.config.scheduling
    afterLoop rc (loopGo rc j.config.scheduling.delay attempts stopBy fuel 0 j)

/-- Count of action invocations in a trace. -/
def countAction (tr : List Ev) : Nat :=
  (tr.filter fun e => match e with | .actionCall _ => true | _ => false).length

/-- Count of monitor invocations in a trace. -/
def countMonitor (tr : List Ev) : Nat :=
  (tr.filter fun e => match e with | .monitorCall _ => true | _ => false).length

/-- Count of page reloads in a trace. -/
def countReload (tr : List Ev) : Nat :=
  (tr.filter fun e => match e with | .reloadEv => true | _ => false).length

/-! ## The timeout watchdog (src/lib/job.js lines 446-453) and the
`stopped` property

The class defines `stopped` as an accessor with a getter and no setter
(lines 311-313).  The watchdog callback executes `this.stopped = true`;
in strict mode (class bodies are always strict) an assignment to an
accessor property without a setter throws a `TypeError`. -/

inductive PropKind
  | dataProp
  | getterOnly
deriving DecidableEq, Repr

/-- The property descriptor of `Job.prototype.stopped`: `get stopped ()`
with no corresponding setter. -/
def stoppedPropKind : PropKind := .getterOnly

/-- Strict-mode JS assignment through a property descriptor: writing to an
accessor that has no setter throws a `TypeError`; a data property would be
updated (the update value is irrelevant here because the descriptor is a
getter, so no update function is needed). -/
def strictAssignStopped (j : JobRec) : Except JSErr JobRec :=
  match stoppedPropKind with
  | .getterOnly =>
    .error (.typeError "Cannot set property stopped of Job which has only a getter")
  | .dataProp => .ok j

/-- The watchdog callback: `this.stopped = true; this.log('Timed out')`. -/
def watchdogFire (j : JobRec) : Except JSErr JobRec := do
  let j ← strictAssignStopped j
  .ok (j.log "Timed out")

/-! ## Manager registry (src/unnamed/part_002)

A JS `Map` keyed by job identifier, in insertion order.  `addJob`
constructs the job (construction failures propagate before any
registration), subscribes to its `state` and `next` events and registers
it.  The state subscription deletes the entry when — and only when — a
`removed` state arrives; the `next` subscription registers the successor
under its own identifier. -/

abbrev Registry := List (String × JobRec)

namespace Registry

/-- `Map.prototype.set`: replace the entry of an existing key in place,
otherwise append (JS `Map` preserves insertion order). -/
def set : Registry → String → JobRec → Registry
  | [], k, v => [(k, v)]
  | p :: rest, k, v => if p.1 = k then (k, v) :: rest else p :: set rest k v

/-- `Map.prototype.delete`. -/
def del : Registry → String → Registry
  | [], _ => []
  | p :: rest, k => if p.1 = k then del rest k else p :: del rest k

/-- `Map.prototype.get`. -/
def get : Registry → String → Option JobRec
  | [], _ => none
  | p :: rest, k => if p.1 = k then some p.2 else get rest k

end Registry

/-- The manager's `state` listener (part_002 lines 22-24):
`state === 'removed' && this.jobs.delete(job.id)`. -/
def handleStateEvt (m : Registry) (id : String) (s : JobState) : Registry :=
  if s = .removed then m.del id else m

/-- The manager's `next` listener (part_002 lines 26-33): register the
successor under its own id (and re-subscribe, which the registry model
reflects by processing the successor's future events the same way). -/
def handleNextEvt (m : Registry) (succ : JobRec) : Registry :=
  m.set succ.id succ

/-- `addJob` (part_002 lines 19-43): construct, subscribe, register. -/
def addJob (m : Registry) (id : String) (cfg : JobConfig) (script : String)
    (now : JSDate) : Except JSErr (Registry × JobRec) := do
  let job ← construct id cfg script now
  .ok (m.set job.id job, job)

/-- Deliver a job's emitted events to the manager's subscriptions. -/
def feedEvents (m : Registry) (id : String) : List JEvent → Registry
  | [] => m
  | .state s :: rest => feedEvents (handleStateEvt m id s) id rest
  | .next _ :: rest => feedEvents m id rest

/-! ## Operation sequences on one job (for claim C5)

A small-step model of the externally invokable operations.  `schedule`
swaps `start` for a throwing closure and installs a working `unschedule`
(lines 510-523); the timer armed by `util.schedule` stays armed until it
fires or `unschedule` clears it — `rm` does not clear it.  Each operation
is total: an operation whose source throws or is a no-op leaves the job
unchanged. -/

structure MJob where
  mstate : JobState
  startDisabled : Bool
  timerArmed : Bool
deriving DecidableEq, Repr

inductive Op
  | startOp
  | stopOp
  | rmOp
  | scheduleOp
  | unscheduleOp
  | timerFire
  | finishOp
deriving DecidableEq, Repr

/-- Effect of one operation, from the source:
`start` throws after `schedule` replaced it, otherwise unconditionally
`changeState('running')` (line 406); `stop` is guarded by `running`
(line 500); `rm` by `!running` (line 493); `schedule` (with a future
instant) arms the timer, disables `start` and enters `scheduled`;
`unschedule` throws unless `schedule` installed it, else clears the timer
and calls `rm`; the timer firing invokes the captured original `start`;
`finish` moves `running` to `done` (line 665). -/
def stepOp (j : MJob) : Op → MJob
  | .startOp => if j.startDisabled then j else { j with mstate := .running }
  | .stopOp => if j.mstate = .running then { j with mstate := .stopped } else j
  | .rmOp => if j.mstate = .running then j else { j with mstate := .removed }
  | .scheduleOp => { j with mstate := .scheduled, startDisabled := true, timerArmed := true }
  | .unscheduleOp =>
    if j.startDisabled then
      { j with timerArmed := false,
               mstate := if j.mstate = .running then j.mstate else .removed }
    else j
  | .timerFire =>
    if j.timerArmed then { j with timerArmed := false, mstate := .running } else j
  | .finishOp => if j.mstate = .running then { j with mstate := .done } else j

def mRun (j : MJob) : List Op → MJob
  | [] => j
  | op :: ops => mRun (stepOp j op) ops

/-- The job as constructed with no `scheduling.when`. -/
def mInit : MJob := { mstate := .created, startDisabled := false, timerArmed := false }

/-- Rank of a state along the intended forward direction of the state
machine. -/
def rank : JobState → Nat
  | .created => 0
  | .scheduled => 1
  | .running => 2
  | .stopped => 3
  | .done => 3
  | .removed => 4

/-- Guards under which the amended monotonicity claim is stated: `start`
and `schedule` are only invoked on a freshly created job, and `rm` is not
invoked while the scheduling timer is still armed (`unschedule` is the
operation for that). -/
def okOp (j : MJob) : Op → Prop
  | .startOp => j.mstate = .created
  | .scheduleOp => j.mstate = .created
  | .rmOp => j.timerArmed = false
  | _ => True

def validFrom (j : MJob) : List Op → Prop
  | [] => True
  | op :: ops => okOp j op ∧ validFrom (stepOp j op) ops

/-! ## Snapshot and serialization (`toObject`, src/lib/job.js 611-618)

`toObject` returns the object literal
`{ config, id, logs, state }`; the transport layer serializes it with
`JSON.stringify` and observers re-hydrate the displayed fields. -/

inductive Json
  | str (s : String)
  | num (n : Int)
  | boolean (b : Bool)
  | arr (l : List Json)
  | obj (l : List (String × Json))

def encodeConfig (c : JobConfig) : Json :=
  .obj [("title", .str c.title),
        ("browser", .obj [("headless", .boolean c.browser.headless)]),
        ("scheduling", .obj [("attempts", .num c.scheduling.attempts),
                             ("delay", .num c.scheduling.delay),
                             ("timeout", .num c.scheduling.timeout)])]

/-- The serialized snapshot: the fields of the object literal returned by
`toObject`, in source order. -/
def toObject (j : JobRec) : List (String × Json) :=
  [("config", encodeConfig j.config),
   ("id", .str j.id),
   ("logs", .arr (j.logs.map .str)),
   ("state", .str (stateName j.state))]

def getField (o : List (String × Json)) (k : String) : Option Json :=
  (o.find? fun p => p.1 = k).map Prod.snd

def asStr : Json → Option String
  | .str s => some s
  | _ => none

/-- Decode a JSON array of strings element by element. -/
def asStrs : List Json → Option (List String)
  | [] => some []
  | x :: rest => do
    let s ← asStr x
    let r ← asStrs rest
    some (s :: r)

def asStrList : Json → Option (List String)
  | .arr l => asStrs l
  | _ => none

/-- Re-hydration of the displayed fields of a snapshot. -/
def rehydrate (o : List (String × Json)) : Option (String × String × List String) := do
  let id ← (getField o "id").bind asStr
  let st ← (getField o "state").bind asStr
  let logs ← (getField o "logs").bind asStrList
  some (id, st, logs)

/-! ## Inbound event correlation (`recvInbound`/`recvCode`,
src/lib/job.js lines 625-653)

`recvInbound` races the next `inbound` event against a timer; the model
takes the arrival time of the next inbound payload (if any) relative to
the call.  The timer rejects with a bare `Error`; `recvCode` throws an
`Error` whose message says the code was not found. -/

structure Payload where
  text : String
deriving DecidableEq, Repr

inductive RecvErr
  | timeoutErr
  | notFound
deriving DecidableEq, Repr

/-- `recvInbound(timeout = 60e3)`: resolves with the payload if it arrives
strictly before the timer fires, rejects otherwise. -/
def recvInbound (inbound : Option (Nat × Payload)) (timeout : Option Nat) :
    Except RecvErr Payload :=
  let t := timeout.getD 60000
  match inbound with
  | some (at_, p) => if at_ < t then .ok p else .error .timeoutErr
  | none => .error .timeoutErr

/-- Whether the first `len` characters of `l` exist and are all digits:
the test the regex performs at one position. -/
def windowIsDigits (len : Nat) (l : List Char) : Bool :=
  decide (len ≤ l.length) && (l.take len).all Char.isDigit

/-- First match of the regex built from the requested digit length: the
earliest position with `len` consecutive digits. -/
def firstDigitRun (len : Nat) : List Char → Option (List Char)
  | [] => if len = 0 then some [] else none
  | c :: rest =>
    if windowIsDigits len (c :: rest) then some ((c :: rest).take len)
    else firstDigitRun len rest

/-- Modelled from the spec: some digit run of the requested length occurs
in the text. -/
def specHasDigitRun (len : Nat) : List Char → Bool
  | [] => windowIsDigits len []
  | c :: rest => windowIsDigits len (c :: rest) || specHasDigitRun len rest

/-- `recvCode({length = 6, timeout})`: receive a payload, match the digit
regex against its text, and throw when no (non-empty) code results. -/
def recvCode (inbound : Option (Nat × Payload)) (length timeout : Option Nat) :
    Except RecvErr String := do
  let p ← recvInbound inbound timeout
  let len := length.getD 6
  match firstDigitRun len p.text.data with
  | some cs => if cs.isEmpty then .error .notFound else .ok (String.mk cs)
  | none => .error .notFound

/-! ## Helper lemmas -/

@[simp] theorem exceptBindErr {ε α β : Type} (e : ε) (f : α → Except ε β) :
    (Except.error e : Except ε α) >>= f = Except.error e := rfl

@[simp] theorem exceptBindOk {ε α β : Type} (a : α) (f : α → Except ε β) :
    (Except.ok a : Except ε α) >>= f = f a := rfl

theorem Registry.get_set_self (m : Registry) (k : String) (v : JobRec) :
    (m.set k v).get k = some v := by
  induction m with
  | nil => simp [Registry.set, Registry.get]
  | cons a rest ih =>
    by_cases h : a.1 = k
    · simp [Registry.set, Registry.get, h]
    · simp [Registry.set, Registry.get, h, ih]

theorem Registry.get_del_self (m : Registry) (k : String) :
    (m.del k).get k = none := by
  induction m with
  | nil => rfl
  | cons a rest ih =>
    by_cases h : a.1 = k
    · simpa [Registry.del, Registry.get, h] using ih
    · simpa [Registry.del, Registry.get, h] using ih

/-- Decoding a list of encoded strings gives the list back. -/
theorem asStrs_map_str (l : List String) : asStrList (Json.arr (l.map Json.str)) = some l := by
  induction l with
  | nil => rfl
  | cons s rest ih =>
    simp only [asStrList] at ih ⊢
    simp [asStrs, asStr, ih]

/-- When no digit run of the requested length occurs, the regex finds no
match. -/
theorem firstDigitRun_eq_none (len : Nat) :
    ∀ l : List Char, specHasDigitRun len l = false → firstDigitRun len l = none := by
  intro l
  induction l with
  | nil =>
    intro h
    simp only [specHasDigitRun] at h
    simp [firstDigitRun]
    intro hlen
    subst hlen
    simp [windowIsDigits] at h
  | cons c rest ih =>
    intro h
    simp only [specHasDigitRun, Bool.or_eq_false_iff] at h
    simp [firstDigitRun, h.1, ih h.2]

/-- The trace produced by `k` iterations of the attempt loop when every
`action` call returns false and no stop arrives, starting at index `i`. -/
def falseTrace (delay : Nat) : Nat → Nat → List Ev
  | 0, _ => []
  | k + 1, i =>
    [Ev.actionCall i] ++ (if delay ≠ 0 then [Ev.sleepEv] else []) ++ [Ev.reloadEv]
      ++ falseTrace delay k (i + 1)

theorem countAction_falseTrace (delay : Nat) :
    ∀ k i, countAction (falseTrace delay k i) = k := by
  intro k
  induction k with
  | zero => intro i; rfl
  | succ k ih =>
    intro i
    by_cases hd : delay = 0
    · subst hd
      simpa [falseTrace, countAction] using ih (i + 1)
    · simpa [falseTrace, countAction, hd] using ih (i + 1)

theorem countReload_falseTrace (delay : Nat) :
    ∀ k i, countReload (falseTrace delay k i) = k := by
  intro k
  induction k with
  | zero => intro i; rfl
  | succ k ih =>
    intro i
    by_cases hd : delay = 0
    · subst hd
      simpa [falseTrace, countReload] using ih (i + 1)
    · simpa [falseTrace, countReload, hd] using ih (i + 1)

theorem countMonitor_falseTrace (delay : Nat) :
    ∀ k i, countMonitor (falseTrace delay k i) = 0 := by
  intro k
  induction k with
  | zero => intro i; rfl
  | succ k ih =>
    intro i
    by_cases hd : delay = 0
    · subst hd
      simpa [falseTrace, countMonitor] using ih (i + 1)
    · simpa [falseTrace, countMonitor, hd] using ih (i + 1)

/-- With a finite attempt bound, an always-false `action` and no stop, the
loop performs exactly the remaining attempts and reaches its exit
condition. -/
theorem loopGo_allFalse_finite (rc : RunCfg) (hact : ∀ i, rc.action i = .ok false)
    (delay n : Nat) :
    ∀ k i j, n = i + k → j.state = .running →
      loopGo rc delay (some n) (fun _ => false) (k + 1) i j =
        (j, n, falseTrace delay k i, true) := by
  intro k
  induction k with
  | zero =>
    intro i j hn hj
    subst hn
    rw [loopGo]
    simp [loopGuard, JobRec.stoppedGet, hj, falseTrace]
  | succ k ih =>
    intro i j hn hj
    have hlt : i < n := by omega
    have hrec := ih (i + 1) j (by omega) hj
    rw [loopGo]
    simp [loopGuard, JobRec.stoppedGet, hj, hlt, hact i, hrec, falseTrace]

/-- With an unbounded attempt bound (`attempts = Infinity`), an
always-false `action` and no stop, the loop never reaches its exit
condition: any amount of fuel runs out with the loop still going and the
job still `running`. -/
theorem loopGo_allFalse_inf (rc : RunCfg) (hact : ∀ i, rc.action i = .ok false)
    (delay : Nat) :
    ∀ fuel i j, j.state = .running →
      loopGo rc delay none (fun _ => false) fuel i j =
        (j, i + fuel, falseTrace delay fuel i, false) := by
  intro fuel
  induction fuel with
  | zero => intro i j hj; simp [loopGo, falseTrace]
  | succ fuel ih =>
    intro i j hj
    have hrec := ih (i + 1) j hj
    have harith : i + (fuel + 1) = (i + 1) + fuel := by omega
    rw [loopGo]
    simp [loopGuard, JobRec.stoppedGet, hj, hact i, hrec, falseTrace, harith]

/-! ## Concrete fixtures used by counterexamples and witnesses -/

/-- A freshly constructed job record with no `scheduling.when`. -/
def mkCreated (id : String) (cfg : JobConfig) (script : String) : JobRec :=
  { id := id, config := cfg, script := script, state := .created,
    logs := [], result := [], events := [], beginHandled := false }

def cfgAttempts (N delay : Nat) : JobConfig :=
  { title := "t", scheduling := { attempts := N, delay := delay } }

def cfgTimeout : JobConfig := { title := "t", scheduling := { timeout := 1 } }

def rcAllFalse : RunCfg := { action := fun _ => .ok false }

def cfgPlain : JobConfig := { title := "t" }

def jPlain : JobRec :=
  { id := "a", config := cfgPlain, script := "s", state := .created,
    logs := [], result := [], events := [], beginHandled := false }

def jSnap : JobRec :=
  { id := "a", config := cfgPlain, script := "s", state := .created,
    logs := ["l1", "l2"], result := [], events := [], beginHandled := false }

/-! ## Claim C1 — timeout watchdog -/

/-- The job record right after `changeState('running')`, the `result`
reset and the `Started` log of a run of `cfgTimeout`. -/
def jTimeoutRunning : JobRec :=
  { id := "a", config := cfgTimeout, script := "s", state := .running,
    logs := ["Started \"t\""], result := [],
    events := [JEvent.state .running], beginHandled := true }

/-- C1: with `scheduling.timeout` > 0 the attempt bound is indeed made
unbounded, but the armed watchdog is broken: its first statement
`this.stopped = true` is a strict-mode assignment to the getter-only
accessor `stopped` (job.js lines 311-313), so the callback throws a
`TypeError` before setting any flag or logging `Timed out`.  The loop
therefore never observes a stop: for every amount of fuel the run is
still going, with the job still `running` — it does not reach a terminal
state, contrary to the claim. -/
theorem claimC1_watchdog_bug :
    effAttempts cfgTimeout.scheduling = none
    ∧ (∀ j : JobRec, watchdogFire j =
        .error (.typeError "Cannot set property stopped of Job which has only a getter"))
    ∧ (∀ fuel : Nat,
        startRun "f" ⟨0⟩ (mkCreated "a" cfgTimeout "s") rcAllFalse (fun _ => false) fuel =
          .ok { job := jTimeoutRunning, i := fuel, trace := falseTrace 0 fuel 0,
                finished := false }) := by
  refine ⟨rfl, fun j => rfl, fun fuel => ?_⟩
  have hred : startRun "f" ⟨0⟩ (mkCreated "a" cfgTimeout "s") rcAllFalse (fun _ => false) fuel =
      afterLoop rcAllFalse (loopGo rcAllFalse 0 none (fun _ => false) fuel 0 jTimeoutRunning) :=
    rfl
  rw [hred, loopGo_allFalse_inf rcAllFalse (fun i => rfl) 0 fuel 0 jTimeoutRunning rfl]
  simp [afterLoop]

/-! ## Claim C6 — attempt and reload counts -/

/-- C6, counterexample: for `attempts = 1` (timeout 0, no stop, `action`
always false) the run's loop trace is `[action 0, reload]` — the single
attempt is followed by a page reload, so a reload does occur after the
last attempt, contrary to the claim's parenthetical; the reload count is
`N`, never `N - 1`. -/
theorem claimC6_counterexample :
    (startRun "f" ⟨0⟩ (mkCreated "a" (cfgAttempts 1 0) "s") rcAllFalse
        (fun _ => false) 2).map RunOut.trace = .ok [Ev.actionCall 0, Ev.reloadEv] := rfl

/-- The job record right after `changeState('running')`, the `result`
reset and the `Started` log of a run of `cfgAttempts N delay`. -/
def jAttRunning (N delay : Nat) : JobRec :=
  { id := "a", config := cfgAttempts N delay, script := "s", state := .running,
    logs := ["Started \"t\""], result := [],
    events := [JEvent.state .running], beginHandled := true }

/-- A finished loop on a still-running job winds down through the
post-loop block and `finish`, reaching the terminal state `done`. -/
theorem afterLoop_finished (rc : RunCfg) (j : JobRec) (i : Nat) (tr : List Ev)
    (hj : j.state = .running) :
    ∃ jf : JobRec,
      afterLoop rc (j, i, tr, true) = .ok { job := jf, i := i, trace := tr, finished := true }
      ∧ jf.state = .done := by
  simp only [afterLoop, JobRec.stoppedGet, hj]
  cases hf : rc.finalize with
  | ok u =>
    cases u
    refine ⟨finishJ (((j.log ("Ran action() " ++ toString i ++ " times")).log
      "Result: ...").log "Completed"), ?_, ?_⟩
    · simp
    · simp [finishJ, JobRec.log, hj]
  | error m =>
    refine ⟨finishJ (((j.log ("Ran action() " ++ toString i ++ " times")).log
      ("finalize() failed: " ++ m)).log "Halting job"), ?_, ?_⟩
    · simp
    · simp [finishJ, JobRec.log, hj]

/-- C6 (amended): for every N ≥ 0, running a job with
`scheduling.attempts = N`, `scheduling.timeout = 0`, no stop request and
an always-false, never-throwing `action` invokes `action` exactly N times
and the page-reload step exactly N times (a reload follows every attempt,
including the last), after which the job reaches the terminal state
`done`.  The claimed count of "N-1 or N" reloads holds because the count
is N; the parenthetical (no reload after the last attempt) does not. -/
theorem claimC6_counts (N delay : Nat) :
    ∃ out : RunOut,
      startRun "f" ⟨0⟩ (mkCreated "a" (cfgAttempts N delay) "s") rcAllFalse
          (fun _ => false) (N + 1) = .ok out
      ∧ out.finished = true
      ∧ countAction out.trace = N
      ∧ (countReload out.trace = N - 1 ∨ countReload out.trace = N)
      ∧ countReload out.trace = N
      ∧ countMonitor out.trace = 0
      ∧ out.job.state = .done := by
  have hred : startRun "f" ⟨0⟩ (mkCreated "a" (cfgAttempts N delay) "s") rcAllFalse
      (fun _ => false) (N + 1) =
      afterLoop rcAllFalse
        (loopGo rcAllFalse delay (some N) (fun _ => false) (N + 1) 0 (jAttRunning N delay)) :=
    rfl
  have hloop := loopGo_allFalse_finite rcAllFalse (fun i => rfl) delay N N 0
    (jAttRunning N delay) (by omega) rfl
  obtain ⟨jf, hafter, hdone⟩ :=
    afterLoop_finished rcAllFalse (jAttRunning N delay) N (falseTrace delay N 0) rfl
  refine ⟨{ job := jf, i := N, trace := falseTrace delay N 0, finished := true },
    ?_, rfl, ?_, ?_, ?_, ?_, hdone⟩
  · rw [hred, hloop]
    exact hafter
  · exact countAction_falseTrace delay N 0
  · exact Or.inr (countReload_falseTrace delay N 0)
  · exact countReload_falseTrace delay N 0
  · exact countMonitor_falseTrace delay N 0

/-! ## Claim C2 — the monitor hook -/

/-- A successful `changeState('running')` followed by the `result` reset
and the `Started` log, for a job whose config has no recurrence. -/
def jRunGen (id : String) (cfg : JobConfig) (script : String) : JobRec :=
  { id := id, config := cfg, script := script, state := .running,
    logs := ["Started \"" ++ cfg.title ++ "\""], result := [],
    events := [JEvent.state .running], beginHandled := true }

/-- When the launch and `setup` succeed, `start()` is the attempt loop on
the post-setup job followed by the post-loop wind-down. -/
theorem startRun_ok (freshId : String) (now : JSDate) (j0 j1 j2 : JobRec) (rc : RunCfg)
    (stopBy : Nat → Bool) (fuel : Nat)
    (hpre : changeState freshId now j0 .running = .ok j1)
    (hj2 : ({ j1 with result := [] }).log ("Started \"" ++ j1.config.title ++ "\"") = j2)
    (hlaunch : rc.launchOk = true) (hsetup : rc.setup = .ok ()) :
    startRun freshId now j0 rc stopBy fuel =
      afterLoop rc (loopGo rc j2.config.scheduling.delay (effAttempts j2.config.scheduling)
        stopBy fuel 0 j2) := by
  rw [startRun, hpre]
  simp only [exceptBindOk, hj2, hlaunch, hsetup, eq_self_iff_true, not_true, if_false]

/-- The behaviour of a monitor hook that reports ready at once and an
action hook that always returns a falsy value. -/
def monReady : Nat → ARes := fun _ => .ok true

def actFalse : Nat → ARes := fun _ => .ok false

/-- A script context that defines a `monitor` binding (and an `action`). -/
def ctxMon : Ctx := { monitor := some (.fn monReady), action := some (.fn actFalse) }

def hooksMon : Hooks := { action := some actFalse }

/-- The run behaviours induced by a hook record: a missing `action` falls
back to the class default `async action () { return true }`; missing
`setup`/`finalize` default to no-ops. -/
def hooksRunCfg (h : Hooks) : RunCfg :=
  { setup :=
      match h.setup with
      | some f => match f 0 with | .exn m => .error m | .ok _ => .ok ()
      | none => .ok ()
    action := h.action.getD (fun _ => .ok true)
    finalize :=
      match h.finalize with
      | some f => match f 0 with | .exn m => .error m | .ok _ => .ok ()
      | none => .ok () }

/-- C2, counterexample: a script that defines `monitor` compiles, but the
binding is ignored — `setScript` recognizes only `setup`, `action` and
`finalize` — and a run with two attempts and an immediately-ready monitor
invokes `action` twice and `monitor` never, instead of invoking `monitor`
first and `action` exactly once as the claim states. -/
theorem claimC2_counterexample :
    setScript ctxMon = .ok hooksMon
    ∧ (startRun "f" ⟨0⟩ (mkCreated "a" (cfgAttempts 2 0) "s") (hooksRunCfg hooksMon)
        (fun _ => false) 3).map RunOut.trace =
      .ok [Ev.actionCall 0, Ev.reloadEv, Ev.actionCall 1, Ev.reloadEv]
    ∧ countMonitor [Ev.actionCall 0, Ev.reloadEv, Ev.actionCall 1, Ev.reloadEv] = 0
    ∧ countAction [Ev.actionCall 0, Ev.reloadEv, Ev.actionCall 1, Ev.reloadEv] = 2 :=
  ⟨rfl, rfl, rfl, rfl⟩

/-- C2 (amended): the script sandbox recognizes exactly the three
top-level bindings `setup`, `action` and `finalize` — a `monitor` binding
is never inspected, so `setScript` is invariant under it — and each
iteration of the attempt loop invokes `action` directly; a truthy
`action` result ends the loop at once, `action` having been invoked
exactly once, regardless of attempts remaining. -/
theorem claimC2_no_monitor (ctx : Ctx) (v : Option CtxVal) (rc : RunCfg)
    (N delay : Nat) (id script : String)
    (hlaunch : rc.launchOk = true) (hsetup : rc.setup = .ok ())
    (hact : rc.action 0 = .ok true) (hN : 1 ≤ N) :
    setScript { ctx with monitor := v } = setScript ctx
    ∧ (∀ f g e : Nat → ARes,
        setScript { setup := some (.fn f), monitor := v, action := some (.fn g),
                    finalize := some (.fn e) } =
          .ok { setup := some f, action := some g, finalize := some e })
    ∧ (∃ out : RunOut,
        startRun "f" ⟨0⟩ (mkCreated id (cfgAttempts N delay) script) rc
            (fun _ => false) 1 = .ok out
        ∧ out.finished = true
        ∧ out.i = 1
        ∧ out.trace = [Ev.actionCall 0]
        ∧ countMonitor out.trace = 0
        ∧ out.job.state = .done) := by
  refine ⟨rfl, fun f g e => rfl, ?_⟩
  obtain ⟨jf, hafter, hdone⟩ := afterLoop_finished rc
    (jRunGen id (cfgAttempts N delay) script) 1 [Ev.actionCall 0] rfl
  refine ⟨{ job := jf, i := 1, trace := [Ev.actionCall 0], finished := true },
    ?_, rfl, rfl, rfl, rfl, hdone⟩
  rw [startRun_ok "f" ⟨0⟩ (mkCreated id (cfgAttempts N delay) script)
    _ (jRunGen id (cfgAttempts N delay) script) rc (fun _ => false) 1 rfl rfl hlaunch hsetup]
  have hloop : loopGo rc (jRunGen id (cfgAttempts N delay) script).config.scheduling.delay
      (effAttempts (jRunGen id (cfgAttempts N delay) script).config.scheduling)
      (fun _ => false) 1 0 (jRunGen id (cfgAttempts N delay) script) =
      (jRunGen id (cfgAttempts N delay) script, 1, [Ev.actionCall 0], true) := by
    show loopGo rc delay (some N) (fun _ => false) 1 0
        (jRunGen id (cfgAttempts N delay) script) = _
    rw [loopGo]
    simp [loopGuard, JobRec.stoppedGet, jRunGen, hact, hN]
    omega
  rw [hloop]
  exact hafter

def rcAllTrue : RunCfg := { action := fun _ => .ok true }

theorem claimC2_no_monitor_witness :
    setScript { ({} : Ctx) with monitor := none } = setScript {}
    ∧ (∀ f g e : Nat → ARes,
        setScript { setup := some (.fn f), monitor := none, action := some (.fn g),
                    finalize := some (.fn e) } =
          .ok { setup := some f, action := some g, finalize := some e })
    ∧ (∃ out : RunOut,
        startRun "f" ⟨0⟩ (mkCreated "a" (cfgAttempts 2 0) "s") rcAllTrue
            (fun _ => false) 1 = .ok out
        ∧ out.finished = true
        ∧ out.i = 1
        ∧ out.trace = [Ev.actionCall 0]
        ∧ countMonitor out.trace = 0
        ∧ out.job.state = .done) :=
  claimC2_no_monitor {} none rcAllTrue 2 0 "a" "s" rfl rfl rfl (by decide)

/-! ## Claim C10 — a stopped job stays stopped and registered -/

/-- When `stop()` arrives at checkpoint `k ≤ N` and `action` always
returns false, the loop exits at the guard of iteration `k` with the job
moved to `stopped`. -/
theorem loopGo_stops (rc : RunCfg) (hact : ∀ i, rc.action i = .ok false) (delay N k : Nat) :
    ∀ fuel i j, j.state = .running → i ≤ k → k ≤ N → k - i < fuel →
      ∃ tr, loopGo rc delay (some N) (fun n => decide (k ≤ n)) fuel i j =
        (stopFn j, k, tr, true) := by
  intro fuel
  induction fuel with
  | zero => intro i j hj hik hkN hfuel; omega
  | succ fuel ih =>
    intro i j hj hik hkN hfuel
    by_cases hi : i = k
    · subst hi
      refine ⟨[], ?_⟩
      rw [loopGo]
      simp [loopGuard, stopFn, JobRec.stoppedGet, hj]
    · have hik2 : i < k := by omega
      have hiN : i < N := by omega
      obtain ⟨tr, htr⟩ := ih (i + 1) j hj (by omega) hkN (by omega)
      refine ⟨[Ev.actionCall i] ++ (if delay ≠ 0 then [Ev.sleepEv] else [])
        ++ [Ev.reloadEv] ++ tr, ?_⟩
      rw [loopGo]
      simp [loopGuard, JobRec.stoppedGet, hj, hact i, htr, Nat.not_le.mpr hik2, hiN]

/-- A finished loop on a stopped job skips the post-loop block, and
`finish` leaves the stopped state untouched. -/
theorem afterLoop_stopped (rc : RunCfg) (j : JobRec) (i : Nat) (tr : List Ev)
    (hj : j.state = .stopped) :
    afterLoop rc (j, i, tr, true) = .ok { job := j, i := i, trace := tr, finished := true } := by
  simp [afterLoop, JobRec.stoppedGet, hj, finishJ]

/-- C10: a running job on which `stop()` is called ends its run in state
`stopped`: the loop observes the stop at its next checkpoint and exits,
the post-loop block is skipped, and `finish` only transitions to `done`
when the job is still `running`; the manager evicts only on `removed`, so
feeding the run's emitted state events to it leaves the job registered —
the job keeps state `stopped` and stays in the registry. -/
theorem claimC10_stop_keeps_registered (id script : String) (N k delay : Nat) (rc : RunCfg)
    (hlaunch : rc.launchOk = true) (hsetup : rc.setup = .ok ())
    (hact : ∀ i, rc.action i = .ok false) (hkN : k ≤ N) :
    (∃ out : RunOut, ∃ tr : List Ev,
        startRun "f" ⟨0⟩ (mkCreated id (cfgAttempts N delay) script) rc
            (fun n => decide (k ≤ n)) (N + 1) = .ok out
        ∧ out.finished = true
        ∧ out.job.state = .stopped
        ∧ out.trace = tr
        ∧ out.job.events = [JEvent.state .running, JEvent.state .stopped]
        ∧ ∀ m : Registry, feedEvents m id out.job.events = m)
    ∧ (∀ j : JobRec, j.state ≠ .running → finishJ j = j)
    ∧ (∀ m : Registry, ∀ id2 s, s ≠ .removed → handleStateEvt m id2 s = m)
    ∧ (∀ j : JobRec, j.state = .running → (stopFn j).state = .stopped) := by
  refine ⟨?_, ?_, ?_, ?_⟩
  · obtain ⟨tr, hloop⟩ := loopGo_stops rc hact delay N k (N + 1) 0
      (jRunGen id (cfgAttempts N delay) script) rfl (by omega) hkN (by omega)
    have hstopped : (stopFn (jRunGen id (cfgAttempts N delay) script)).state = .stopped := rfl
    refine ⟨{ job := stopFn (jRunGen id (cfgAttempts N delay) script), i := k, trace := tr,
              finished := true }, tr, ?_, rfl, hstopped, rfl, rfl, ?_⟩
    · rw [startRun_ok "f" ⟨0⟩ (mkCreated id (cfgAttempts N delay) script)
        _ (jRunGen id (cfgAttempts N delay) script) rc (fun n => decide (k ≤ n)) (N + 1)
        rfl rfl hlaunch hsetup]
      have hargs : loopGo rc (jRunGen id (cfgAttempts N delay) script).config.scheduling.delay
          (effAttempts (jRunGen id (cfgAttempts N delay) script).config.scheduling)
          (fun n => decide (k ≤ n)) (N + 1) 0 (jRunGen id (cfgAttempts N delay) script) =
          (stopFn (jRunGen id (cfgAttempts N delay) script), k, tr, true) := hloop
      rw [hargs]
      exact afterLoop_stopped rc _ k tr hstopped
    · intro m
      rfl
  · intro j hj
    simp [finishJ, hj]
  · intro m id2 s hs
    simp [handleStateEvt, hs]
  · intro j hj
    simp [stopFn, hj]

theorem claimC10_stop_keeps_registered_witness :
    (∃ out : RunOut, ∃ tr : List Ev,
        startRun "f" ⟨0⟩ (mkCreated "a" (cfgAttempts 1 0) "s") rcAllFalse
            (fun n => decide (0 ≤ n)) 2 = .ok out
        ∧ out.finished = true
        ∧ out.job.state = .stopped
        ∧ out.trace = tr
        ∧ out.job.events = [JEvent.state .running, JEvent.state .stopped]
        ∧ ∀ m : Registry, feedEvents m "a" out.job.events = m)
    ∧ (∀ j : JobRec, j.state ≠ .running → finishJ j = j)
    ∧ (∀ m : Registry, ∀ id2 s, s ≠ .removed → handleStateEvt m id2 s = m)
    ∧ (∀ j : JobRec, j.state = .running → (stopFn j).state = .stopped) :=
  claimC10_stop_keeps_registered "a" "s" 1 0 0 rcAllFalse rfl rfl (fun i => rfl) (by decide)

/-! ## Claim C5 — state-machine monotonicity -/

/-- C5, counterexample: the operation sequence "start, run completes, rm"
drives a job created → running → done → removed: `rm` is guarded only by
`!this.running` (job.js line 493), so it moves a job out of the terminal
state `done`, contradicting the claim that `done` is never exited. -/
theorem claimC5_counterexample :
    (mRun mInit [Op.startOp, Op.finishOp]).mstate = JobState.done
    ∧ (mRun mInit [Op.startOp, Op.finishOp, Op.rmOp]).mstate = JobState.removed :=
  ⟨rfl, rfl⟩

/-- One guarded operation never decreases the state rank, preserves the
armed-timer invariant, and keeps `removed` absorbing while moving
`stopped`/`done` at most to `removed`. -/
theorem stepOp_guarded (j : MJob) (op : Op)
    (hinv : j.timerArmed = true → j.mstate = .scheduled) (hok : okOp j op) :
    rank j.mstate ≤ rank (stepOp j op).mstate
    ∧ ((stepOp j op).timerArmed = true → (stepOp j op).mstate = .scheduled)
    ∧ (j.mstate = .removed → (stepOp j op).mstate = .removed)
    ∧ (j.mstate = .stopped →
        (stepOp j op).mstate = .stopped ∨ (stepOp j op).mstate = .removed)
    ∧ (j.mstate = .done →
        (stepOp j op).mstate = .done ∨ (stepOp j op).mstate = .removed) := by
  obtain ⟨s, sd, ta⟩ := j
  cases op <;> cases s <;> cases sd <;> cases ta <;>
    simp_all [stepOp, okOp, rank]

/-- C5 (amended): for every sequence of the operations in which `start`
and `schedule` are invoked only in state `created` and `rm` is not
invoked while the scheduling timer is pending, the state rank along
created < scheduled < running < stopped,done < removed never decreases;
a `removed` job never changes state again, and a `stopped` or `done` job
can move only to `removed` (via `rm`) — unlike the original claim, `done`
is not terminal under `rm`, and without the guards `start`/`schedule` can
re-enter `running`/`scheduled` from any non-disabled state. -/
theorem claimC5_guarded_monotone (ops : List Op) : ∀ j : MJob,
    (j.timerArmed = true → j.mstate = .scheduled) → validFrom j ops →
    rank j.mstate ≤ rank (mRun j ops).mstate
    ∧ (j.mstate = .removed → (mRun j ops).mstate = .removed)
    ∧ (j.mstate = .stopped →
        (mRun j ops).mstate = .stopped ∨ (mRun j ops).mstate = .removed)
    ∧ (j.mstate = .done →
        (mRun j ops).mstate = .done ∨ (mRun j ops).mstate = .removed) := by
  induction ops with
  | nil =>
    intro j hinv hv
    simp only [mRun]
    exact ⟨le_rfl, fun h => h, fun h => Or.inl h, fun h => Or.inl h⟩
  | cons op rest ih =>
    intro j hinv hv
    obtain ⟨hok, hv2⟩ := hv
    obtain ⟨h1, h2, h3, h4, h5⟩ := stepOp_guarded j op hinv hok
    obtain ⟨g1, g2, g3, g4⟩ := ih (stepOp j op) h2 hv2
    simp only [mRun]
    refine ⟨le_trans h1 g1, ?_, ?_, ?_⟩
    · intro hr
      exact g2 (h3 hr)
    · intro hs
      rcases h4 hs with h | h
      · exact g3 h
      · exact Or.inr (g2 h)
    · intro hd
      rcases h5 hd with h | h
      · exact g4 h
      · exact Or.inr (g2 h)

theorem claimC5_guarded_monotone_witness :
    rank mInit.mstate ≤ rank (mRun mInit [Op.startOp, Op.stopOp, Op.rmOp]).mstate
    ∧ (mInit.mstate = .removed →
        (mRun mInit [Op.startOp, Op.stopOp, Op.rmOp]).mstate = .removed)
    ∧ (mInit.mstate = .stopped →
        (mRun mInit [Op.startOp, Op.stopOp, Op.rmOp]).mstate = .stopped
        ∨ (mRun mInit [Op.startOp, Op.stopOp, Op.rmOp]).mstate = .removed)
    ∧ (mInit.mstate = .done →
        (mRun mInit [Op.startOp, Op.stopOp, Op.rmOp]).mstate = .done
        ∨ (mRun mInit [Op.startOp, Op.stopOp, Op.rmOp]).mstate = .removed) :=
  claimC5_guarded_monotone [Op.startOp, Op.stopOp, Op.rmOp] mInit
    (fun h => nomatch h) ⟨rfl, trivial, rfl, trivial⟩

/-! ## Claim C3 — recurrence chaining -/

/-- The successor view `handleBegin` emits: a fresh identifier, the same
config with `scheduling.when` replaced by the computed instant, the same
script, and state `scheduled`. -/
def succOf (j : JobRec) (freshId : String) (whenD : JSDate) : SuccView :=
  { id := freshId,
    config := { j.config with scheduling :=
      { j.config.scheduling with when := some (.instant whenD) } },
    script := j.script,
    state := .scheduled }

/-- After the once-only `running` listener has fired, driving the job
through any further state transitions emits no further `next` events. -/
theorem drive_beginHandled (freshId : String) (now : JSDate) :
    ∀ (sts : List JobState) (j : JobRec), j.beginHandled = true →
      ∃ j2 : JobRec, drive freshId now j sts = .ok j2
        ∧ nextEvents j2.events = nextEvents j.events := by
  intro sts
  induction sts with
  | nil => intro j hb; exact ⟨j, rfl, rfl⟩
  | cons s rest ih =>
    intro j hb
    have hcs : changeState freshId now j s =
        .ok { j with state := s, events := j.events ++ [JEvent.state s] } := by
      simp [changeState, hb]
    obtain ⟨j2, hd, hn⟩ :=
      ih { j with state := s, events := j.events ++ [JEvent.state s] } hb
    refine ⟨j2, ?_, ?_⟩
    · simp [drive, hcs, hd]
    · rw [hn]
      simp [nextEvents, List.filterMap_append]

/-- C3: for a job whose config has a recurrence with `number ≥ 1` and a
recognized unit, the first transition into `running` emits exactly one
`next` event — and no later transition emits another — carrying a freshly
constructed job with a new identifier, the same script, and the same
config except that `scheduling.when` is the predecessor's `when` (or now
if absent) advanced by `number` units; that successor is in state
`scheduled` (hence not started by the predecessor).  Weeks advance
exactly as `7 * number` days. -/
theorem claimC3_next (j : JobRec) (e : Every) (freshId : String) (now baseD : JSDate)
    (rest : List JobState)
    (hbegin : j.beginHandled = false)
    (hnoNext : nextEvents j.events = [])
    (hEvery : j.config.scheduling.every = some e)
    (hNum : 1 ≤ e.number)
    (hUnit : recognizedUnit e.unit = true)
    (hWhen : j.config.scheduling.when = none ∧ baseD = now
        ∨ j.config.scheduling.when = some (.instant baseD))
    (hFuture : now.ms ≤ (advance baseD e.number e.unit).ms)
    (hFresh : freshId ≠ j.id) :
    ∃ jf : JobRec,
      drive freshId now j (.running :: rest) = .ok jf
      ∧ nextEvents jf.events = [succOf j freshId (advance baseD e.number e.unit)]
      ∧ (succOf j freshId (advance baseD e.number e.unit)).id ≠ j.id
      ∧ (succOf j freshId (advance baseD e.number e.unit)).script = j.script
      ∧ (succOf j freshId (advance baseD e.number e.unit)).state = .scheduled
      ∧ (∀ d : JSDate, ∀ n : Nat, advance d n "week" = advance d (7 * n) "day"
          ∧ advance d n "weeks" = advance d (7 * n) "days") := by
  have hUnitNe : ¬e.unit = "" := by
    intro h
    rw [h] at hUnit
    exact absurd hUnit (by decide)
  have hGuard : ¬(e.number = 0 ∨ e.unit = "") := by
    push_neg
    exact ⟨by omega, hUnitNe⟩
  have hBase : dateFn now (j.config.scheduling.when.getD (.template {})) = .ok baseD := by
    rcases hWhen with ⟨hw, hb⟩ | hw
    · rw [hw]; subst hb; rfl
    · rw [hw]; rfl
  have hNotPast2 : ¬((advance baseD e.number e.unit).ms < now.ms) := by omega
  have hSucc : construct freshId
      { title := j.config.title,
        data := j.config.data,
        browser := j.config.browser,
        scheduling :=
          { when := some (.instant (advance baseD e.number e.unit)),
            every := some e,
            attempts := j.config.scheduling.attempts,
            delay := j.config.scheduling.delay,
            timeout := j.config.scheduling.timeout } }
      j.script now =
      .ok { id := freshId,
            config :=
              { title := j.config.title,
                data := j.config.data,
                browser := j.config.browser,
                scheduling :=
                  { when := some (.instant (advance baseD e.number e.unit)),
                    every := some e,
                    attempts := j.config.scheduling.attempts,
                    delay := j.config.scheduling.delay,
                    timeout := j.config.scheduling.timeout } },
            script := j.script,
            state := .scheduled,
            logs := [],
            result := [],
            events := [JEvent.state .scheduled],
            beginHandled := false } := by
    simp [construct, setConfigState, dateFn, utilSchedule, hNotPast2]
  have hView :
      ({ id := freshId,
         config :=
           { title := j.config.title,
             data := j.config.data,
             browser := j.config.browser,
             scheduling :=
               { when := some (.instant (advance baseD e.number e.unit)),
                 every := some e,
                 attempts := j.config.scheduling.attempts,
                 delay := j.config.scheduling.delay,
                 timeout := j.config.scheduling.timeout } },
         script := j.script,
         state := .scheduled } : SuccView) =
      succOf j freshId (advance baseD e.number e.unit) := by
    simp [succOf, hEvery]
  have hHB : handleBegin
      { id := j.id, config := j.config, script := j.script, state := .running,
        logs := j.logs, result := j.result,
        events := j.events ++ [JEvent.state .running], beginHandled := false }
      freshId now =
      .ok (some (succOf j freshId (advance baseD e.number e.unit))) := by
    rw [← hView]
    simp [handleBegin, hEvery, hGuard, hBase, hSucc]
  have hCS : changeState freshId now j .running =
      .ok { id := j.id, config := j.config, script := j.script, state := .running,
            logs := j.logs, result := j.result,
            events := j.events ++ [JEvent.state .running,
              JEvent.next (succOf j freshId (advance baseD e.number e.unit))],
            beginHandled := true } := by
    simp [changeState, hbegin, hHB]
  obtain ⟨jf, hdrive, hnext⟩ := drive_beginHandled freshId now rest
    { id := j.id, config := j.config, script := j.script, state := .running,
      logs := j.logs, result := j.result,
      events := j.events ++ [JEvent.state .running,
        JEvent.next (succOf j freshId (advance baseD e.number e.unit))],
      beginHandled := true } rfl
  refine ⟨jf, ?_, ?_, hFresh, rfl, rfl, fun d n => ⟨rfl, rfl⟩⟩
  · simp [drive, hCS, hdrive]
  · rw [hnext]
    simp only [nextEvents, List.filterMap_append] at hnoNext ⊢
    simp [hnoNext]

def cfgEvery : JobConfig :=
  { title := "t",
    scheduling := { when := some (.instant ⟨0⟩), every := some ⟨1, "day"⟩ } }

def jEvery : JobRec :=
  { id := "a", config := cfgEvery, script := "s", state := .scheduled,
    logs := [], result := [], events := [JEvent.state .scheduled],
    beginHandled := false }

theorem claimC3_next_witness :
    ∃ jf : JobRec,
      drive "b" ⟨0⟩ jEvery [JobState.running] = .ok jf
      ∧ nextEvents jf.events = [succOf jEvery "b" (advance ⟨0⟩ 1 "day")]
      ∧ (succOf jEvery "b" (advance ⟨0⟩ 1 "day")).id ≠ jEvery.id
      ∧ (succOf jEvery "b" (advance ⟨0⟩ 1 "day")).script = jEvery.script
      ∧ (succOf jEvery "b" (advance ⟨0⟩ 1 "day")).state = .scheduled
      ∧ (∀ d : JSDate, ∀ n : Nat, advance d n "week" = advance d (7 * n) "day"
          ∧ advance d n "weeks" = advance d (7 * n) "days") :=
  claimC3_next jEvery ⟨1, "day"⟩ "b" ⟨0⟩ ⟨0⟩ [] rfl rfl rfl (by decide) (by decide)
    (Or.inr rfl) (by decide) (by decide)


/-! ## Claim C7 — job snapshot and round-trip -/

/-- C7, counterexample: `toObject` (src/lib/job.js 611-618) returns an
object with exactly the fields `config`, `id`, `logs`, `state`; contrary
to the claim there is no `result` field in the snapshot. -/
theorem claimC7_counterexample :
    (toObject jSnap).map Prod.fst = ["config", "id", "logs", "state"]
    ∧ ¬ ("result" ∈ (toObject jSnap).map Prod.fst) :=
  ⟨rfl, by decide⟩

/-- C7 (amended): the snapshot returned by `toObject` has exactly the
fields `config`, `id`, `logs` and `state` (no `result` field), and
re-hydrating the serialized snapshot reproduces `id`, `state` and the
`logs` sequence verbatim, in original order. -/
theorem claimC7_snapshot_roundtrip (j : JobRec) :
    (toObject j).map Prod.fst = ["config", "id", "logs", "state"]
    ∧ rehydrate (toObject j) = some (j.id, stateName j.state, j.logs) := by
  refine ⟨rfl, ?_⟩
  simp [rehydrate, toObject, getField, asStr, asStrs_map_str, List.find?]

/-! ## Claim C4 — registry eviction -/

/-- C4, counterexample: after `addJob` registers a job, delivering the
state `done` to the manager's state listener (part_002 lines 22-24) does
not evict it — `getJob` still returns the job, although the claim says a
job driven to `done` is evicted. -/
theorem claimC4_counterexample :
    addJob [] "a" cfgPlain "s" ⟨0⟩ = .ok ([("a", jPlain)], jPlain)
    ∧ Registry.get (handleStateEvt [("a", jPlain)] "a" JobState.done) "a" = some jPlain :=
  ⟨rfl, rfl⟩

/-- C4 (amended): after `addJob` returns a job, the registry holds it;
driving it to `removed` evicts it, driving it to `done` leaves the
registry unchanged (eviction happens only on `removed`), and a recurrence
successor is registered under its own identifier. -/
theorem claimC4_registry (m : Registry) (freshId : String) (cfg : JobConfig)
    (script : String) (now : JSDate) (m1 : Registry) (j : JobRec)
    (hadd : addJob m freshId cfg script now = .ok (m1, j)) :
    Registry.get m1 j.id = some j
    ∧ Registry.get (handleStateEvt m1 j.id .removed) j.id = none
    ∧ handleStateEvt m1 j.id JobState.done = m1
    ∧ ∀ succ : JobRec, Registry.get (handleNextEvt m1 succ) succ.id = some succ := by
  have hm1 : m1 = m.set j.id j := by
    unfold addJob at hadd
    cases hc : construct freshId cfg script now with
    | error e => rw [hc] at hadd; simp at hadd
    | ok job =>
      rw [hc] at hadd
      simp only [exceptBindOk, Except.ok.injEq, Prod.mk.injEq] at hadd
      obtain ⟨h1, h2⟩ := hadd
      rw [← h1, ← h2]
  refine ⟨?_, ?_, ?_, ?_⟩
  · rw [hm1]; exact Registry.get_set_self m j.id j
  · simp only [handleStateEvt, if_pos rfl]
    exact Registry.get_del_self m1 j.id
  · simp [handleStateEvt]
  · intro succ
    exact Registry.get_set_self m1 succ.id succ

theorem claimC4_registry_witness :
    Registry.get [("a", jPlain)] "a" = some jPlain
    ∧ Registry.get (handleStateEvt [("a", jPlain)] "a" .removed) "a" = none
    ∧ handleStateEvt [("a", jPlain)] "a" JobState.done = [("a", jPlain)]
    ∧ ∀ succ : JobRec, Registry.get (handleNextEvt [("a", jPlain)] succ) succ.id = some succ :=
  claimC4_registry [] "a" cfgPlain "s" ⟨0⟩ [("a", jPlain)] jPlain rfl

/-! ## Claim C8 — inbound wait and code extraction -/

/-- C8: `recvInbound` resolves with the next inbound payload when it
arrives within the bound (default 60000 ms) and rejects with the timeout
failure otherwise; `recvCode` (default length 6) rejects with the
not-found failure when no digit run of the requested length occurs in the
payload text. -/
theorem claimC8_recv (p : Payload) (arr t len : Nat)
    (harr : arr < t) (hnorun : specHasDigitRun len p.text.data = false) :
    recvInbound none (some t) = .error .timeoutErr
    ∧ (∀ a, t ≤ a → recvInbound (some (a, p)) (some t) = .error .timeoutErr)
    ∧ recvInbound (some (arr, p)) (some t) = .ok p
    ∧ (∀ ib, recvInbound ib none = recvInbound ib (some 60000))
    ∧ (∀ ib tm, recvCode ib none tm = recvCode ib (some 6) tm)
    ∧ recvCode (some (arr, p)) (some len) (some t) = .error .notFound := by
  refine ⟨rfl, ?_, ?_, ?_, fun ib tm => rfl, ?_⟩
  · intro a ha
    simp [recvInbound, Nat.not_lt.mpr ha]
  · simp [recvInbound, harr]
  · intro ib
    cases ib <;> rfl
  · simp [recvCode, recvInbound, harr, firstDigitRun_eq_none len p.text.data hnorun,
      Option.getD]

theorem claimC8_recv_witness :
    recvInbound none (some 100) = .error .timeoutErr
    ∧ (∀ a, 100 ≤ a →
        recvInbound (some (a, Payload.mk "ab12c")) (some 100) = .error .timeoutErr)
    ∧ recvInbound (some (50, Payload.mk "ab12c")) (some 100) = .ok (Payload.mk "ab12c")
    ∧ (∀ ib, recvInbound ib none = recvInbound ib (some 60000))
    ∧ (∀ ib tm, recvCode ib none tm = recvCode ib (some 6) tm)
    ∧ recvCode (some (50, Payload.mk "ab12c")) (some 6) (some 100) = .error .notFound :=
  claimC8_recv (Payload.mk "ab12c") 50 100 6 (by decide) (by decide)

/-! ## Claim C9 — scheduling in the past -/

/-- C9: constructing a job (or running `setConfig`) whose
`scheduling.when` resolves to an instant earlier than the current time
throws the `Cannot schedule in the past` error, so construction fails and
`addJob` registers nothing. -/
theorem claimC9_past (id : String) (cfg : JobConfig) (script : String)
    (now T : JSDate) (m : Registry)
    (hwhen : cfg.scheduling.when = some (.instant T)) (hpast : T.ms < now.ms) :
    setConfigState now cfg = .error (.error "Cannot schedule in the past")
    ∧ construct id cfg script now = .error (.error "Cannot schedule in the past")
    ∧ addJob m id cfg script now = .error (.error "Cannot schedule in the past") := by
  have hms : T.ms - now.ms < 0 := by omega
  have h1 : setConfigState now cfg = .error (.error "Cannot schedule in the past") := by
    simp [setConfigState, hwhen, dateFn, utilSchedule, hms, hpast]
  have h2 : construct id cfg script now = .error (.error "Cannot schedule in the past") := by
    simp [construct, h1]
  refine ⟨h1, h2, ?_⟩
  simp [addJob, h2]

def cfgPast : JobConfig :=
  { title := "t", scheduling := { when := some (.instant ⟨0⟩) } }

theorem claimC9_past_witness :
    setConfigState ⟨1000⟩ cfgPast = .error (.error "Cannot schedule in the past")
    ∧ construct "a" cfgPast "s" ⟨1000⟩ = .error (.error "Cannot schedule in the past")
    ∧ addJob [] "a" cfgPast "s" ⟨1000⟩ = .error (.error "Cannot schedule in the past") :=
  claimC9_past "a" cfgPast "s" ⟨1000⟩ ⟨0⟩ [] rfl (by decide)

end Zaark
